import Mathlib

/- Verification of the virtualenv-selector plugin (src/commands.py) against its
   natural-language specification.  The development shallowly embeds the
   manager state (activation stack, PATH, VIRTUAL_ENV), the PATH bookkeeping
   helpers, environment discovery and settings validation, and proves or
   refutes the frozen claims.  Python strings are modelled as Lean strings;
   the Python methods str.split, str.strip and str.join that the source uses
   are translated below on the underlying character lists.  The POSIX value
   of os.pathsep, the colon, is used throughout, matching the hard-coded
   colon in the splitting code of commands.py. -/

/-- Python str.split with a single-character separator, on character lists:
splits at every occurrence of the separator and keeps empty pieces, so that
the empty list yields one empty piece, exactly like "".split(":") == [""]. -/
def splitC (c : Char) : List Char → List (List Char)
  | [] => [[]]
  | x :: xs =>
    if x = c then [] :: splitC c xs
    else
      match splitC c xs with
      | [] => [[x]]
      | y :: ys => (x :: y) :: ys

/-- Python sep.join on character lists: concatenation with the separator
between consecutive pieces. -/
def joinC (c : Char) : List (List Char) → List Char
  | [] => []
  | [x] => x
  | x :: y :: ys => x ++ c :: joinC c (y :: ys)

/-- Python str.strip with no argument, on character lists: drop whitespace
from both ends. -/
def stripL (l : List Char) : List Char :=
  ((l.dropWhile Char.isWhitespace).reverse.dropWhile Char.isWhitespace).reverse

/-- Python str.strip lifted to strings. -/
def pyStrip (s : String) : String := String.mk (stripL s.data)

/-- Python str.split with a one-character separator, lifted to strings. -/
def pySplit (c : Char) (s : String) : List String := (splitC c s.data).map String.mk

/-- Python sep.join for a one-character separator, lifted to strings. -/
def pyJoin (c : Char) (l : List String) : String := String.mk (joinC c (l.map String.data))
/- ------------------------------------------------------------------ -/
/- Data model of commands.py                                          -/
/- ------------------------------------------------------------------ -/

/-- Python str.startswith, on character lists. -/
def isPre : List Char → List Char → Bool
  | [], _ => true
  | _ :: _, [] => false
  | a :: as, b :: bs => a = b && isPre as bs

/-- Python str.startswith lifted to strings. -/
def pyStartsWith (s pre : String) : Bool := isPre pre.data s.data

/-- Python str.endswith lifted to strings. -/
def pyEndsWith (s suf : String) : Bool := isPre suf.data.reverse s.data.reverse

/-- posixpath.join for two components, as used by os.path.join in the
source: an absolute second component replaces the first; otherwise the
components are glued with a slash unless the first is empty or already
ends with one. -/
def pathJoin (a b : String) : String :=
  if pyStartsWith b "/" then b
  else if a = "" ∨ pyEndsWith a "/" then a ++ b
  else a ++ "/" ++ b

/-- TypedDict VirtualEnvInfo of commands.py: an environment descriptor. -/
structure VirtualEnvInfo where
  env : String
  dir : String
deriving DecidableEq, Repr

/-- TypedDict ActivatedVirtualEnvInfo of commands.py: one activation record.
The env field is absent for an environment adopted from the process
environment at manager startup; added_path is the entry that was put at the
front of PATH for this activation, absent when nothing was added. -/
structure ActivatedVirtualEnvInfo where
  env : Option String
  added_path : Option String
  VIRTUAL_ENV : String
deriving DecidableEq, Repr

/-- The mutable state the manager touches: the activation stack
VirtualenvManager._activated_envs (last element = top of stack), and the
process environment variables PATH and VIRTUAL_ENV (an unset variable is
modelled as none). -/
structure MgrState where
  activated_envs : List ActivatedVirtualEnvInfo
  path : Option String
  virtual_env : Option String
deriving DecidableEq, Repr

/-- Observable side effects of one manager call: error dialogs
(sublime.error_message), status-bar messages (sublime.status_message),
python paths handed to the LSP hook (notify_LSP), and logger lines. -/
structure Effects where
  errors : List String
  status : List String
  lsp : List String
  logs : List String
deriving DecidableEq, Repr

/-- The filesystem boundary used by the manager: os.path.exists,
os.path.isdir and os.listdir (returning none models FileNotFoundError). -/
structure Fs where
  exists_path : String → Bool
  isdir : String → Bool
  listdir : String → Option (List String)

/-- VirtualenvManager.get_bin_path (commands.py:248-250).  The source
computes os.path.join(venv_path, "Scripts" if sublime.platform == "win"
else "bin"); sublime.platform is a function object that is never called, so
the comparison with the string "win" is False on every platform and the
branch always selects "bin". -/
def get_bin_path (venv_path : String) : String := pathJoin venv_path "bin"

/-- Modelled from the spec: the intended platform dispatch of
get_bin_path, "Scripts on Windows-style platforms, bin otherwise", which
the source fails to implement because it compares the uncalled
sublime.platform function with "win". -/
def get_bin_path_intended (platform venv_path : String) : String :=
  pathJoin venv_path (if platform = "win" then "Scripts" else "bin")

/-- VirtualenvManager.get_python_path (commands.py:252-254). -/
def get_python_path (venv_bin_path : String) : String := pathJoin venv_bin_path "python"

/-- The PATH items the bookkeeping helpers work on (commands.py:362-368 and
384-388): None, or the whitespace-stripped variable split on the colon,
with a whitespace-only or empty value giving no items. -/
def codeItems (P : Option String) : List String :=
  match P with
  | none => []
  | some s => if pyStrip s = "" then [] else pySplit ':' (pyStrip s)

/-- Removal of the first occurrence of an element, as the loop with del
and break in remove_first_occurrence_in_PATH does. -/
def removeFirst (p : String) : List String → List String
  | [] => []
  | x :: xs => if x = p then xs else x :: removeFirst p xs

/-- VirtualenvManager.add_to_PATH (commands.py:358-375): prepend the entry
to the PATH items unless it is already the first item, writing the joined
items back (os.pathsep is the colon on POSIX); returns whether anything
was added. -/
def add_to_PATH (s : MgrState) (path_to_add : String) : MgrState × Bool :=
  let current_path_items := codeItems s.path
  if current_path_items = [] ∨ current_path_items.head? ≠ some path_to_add then
    ({ s with path := some (pyJoin ':' (path_to_add :: current_path_items)) }, true)
  else
    (s, false)

/-- VirtualenvManager.remove_first_occurrence_in_PATH (commands.py:377-400):
delete the first occurrence of the entry from the PATH items and write the
joined items back; when PATH is unset or whitespace-only, or the entry does
not occur, nothing is written and False is returned. -/
def remove_first_occurrence_in_PATH (s : MgrState) (path_to_remove : String) :
    MgrState × Bool :=
  match s.path with
  | none => (s, false)
  | some cp =>
    if pyStrip cp = "" then (s, false)
    else
      let current_path_items := pySplit ':' (pyStrip cp)
      if path_to_remove ∈ current_path_items then
        ({ s with path := some (pyJoin ':' (removeFirst path_to_remove current_path_items)) },
         true)
      else
        (s, false)

/-- Lines 269-274 of activate_virtualenv: when the stack is non-empty and
the top record has a truthy added_path different from the bin path being
activated, that old entry is removed from PATH. -/
def removeOldAdded (s : MgrState) (venv_bin_path : String) : MgrState :=
  match s.activated_envs.getLast? with
  | some top =>
    match top.added_path with
    | some old =>
      if old ≠ "" ∧ old ≠ venv_bin_path then (remove_first_occurrence_in_PATH s old).1 else s
    | none => s
  | none => s

/-- VirtualenvManager.activate_virtualenv (commands.py:256-299): check the
joined descriptor path on disk, bail out with an error dialog if absent;
otherwise drop the previous added entry, prepend the bin path if it is not
already in front, set VIRTUAL_ENV, push the record, and notify the LSP
hook with the interpreter path. -/
def activate_virtualenv (fs : Fs) (s : MgrState) (selected_venv : VirtualEnvInfo) :
    MgrState × Effects :=
  let venv_path := pathJoin selected_venv.dir selected_venv.env
  if fs.exists_path venv_path then
    let venv_bin_path := get_bin_path venv_path
    let s1 := removeOldAdded s venv_bin_path
    let r := add_to_PATH s1 venv_bin_path
    let added_path : Option String := if r.2 then some venv_bin_path else none
    let msg := "Activated virtualenv: " ++ selected_venv.env
    ({ activated_envs :=
         r.1.activated_envs ++ [⟨some selected_venv.env, added_path, venv_path⟩],
       path := r.1.path,
       virtual_env := some venv_path },
     ⟨[], [msg], [get_python_path venv_bin_path], [msg]⟩)
  else
    (s, ⟨["Virtualenv " ++ venv_path ++ " does not exist."], [], [], []⟩)

/-- Line 346 of deactivate_virtualenv: the previously activated record, the
last element of the remaining stack, has its added_path cleared in place. -/
def clearPrevAdded (l : List ActivatedVirtualEnvInfo) : List ActivatedVirtualEnvInfo :=
  match l.getLast? with
  | some pr => l.dropLast ++ [{ pr with added_path := none }]
  | none => l

/-- VirtualenvManager.deactivate_virtualenv (commands.py:312-356): a logged
no-op on an empty stack; otherwise pop the top record, remove its truthy
added_path from PATH, restore VIRTUAL_ENV from the new top (or unset it),
re-add the new top added_path clearing it when the re-add reports the entry
already in front, and notify the LSP hook. -/
def deactivate_virtualenv (s : MgrState) : MgrState × Effects :=
  match s.activated_envs.getLast? with
  | none => (s, ⟨[], [], [], ["No venv to be deactivated"]⟩)
  | some popped =>
    let rest := s.activated_envs.dropLast
    let s0 : MgrState := { s with activated_envs := rest }
    let prevLog : List String :=
      match rest.getLast? with
      | some pr =>
        ["venv " ++ (match pr.env with | some n => n | none => "None") ++
         " found that was previously activated"]
      | none => []
    let s1 := match popped.added_path with
      | some ap => if ap ≠ "" then (remove_first_occurrence_in_PATH s0 ap).1 else s0
      | none => s0
    let s2 := match rest.getLast? with
      | some pr => { s1 with virtual_env := some pr.VIRTUAL_ENV }
      | none => { s1 with virtual_env := none }
    let venvLog : List String := match rest.getLast? with
      | some pr => ["Updated VIRTUAL_ENV: " ++ pr.VIRTUAL_ENV]
      | none => ["Removed VIRTUAL_ENV variable"]
    let s3 := match rest.getLast? with
      | some pr =>
        match pr.added_path with
        | some q =>
          if q ≠ "" then
            let r := add_to_PATH s2 q
            if r.2 then r.1
            else { r.1 with activated_envs := clearPrevAdded r.1.activated_envs }
          else s2
        | none => s2
      | none => s2
    let pythonPath := match rest.getLast? with
      | some pr => get_python_path (get_bin_path pr.VIRTUAL_ENV)
      | none => ""
    (s3, ⟨[], ["Deactivated virtualenv."], [pythonPath],
          prevLog ++ venvLog ++ ["Deactivated virtualenv."]⟩)

/-- VirtualenvManager._initialize, lines 79-86: the stack starts with one
synthetic unnamed record adopting a pre-existing VIRTUAL_ENV value, or
empty when the variable is unset; PATH is left untouched. -/
def initManagerState (envPATH envVIRTUAL : Option String) : MgrState :=
  { activated_envs :=
      match envVIRTUAL with
      | some v => [⟨none, none, v⟩]
      | none => [],
    path := envPATH,
    virtual_env := envVIRTUAL }

/- ------------------------------------------------------------------ -/
/- Well-formed PATH values and the item-level view of the helpers     -/
/- ------------------------------------------------------------------ -/

/-- A character list with no whitespace at either end. -/
def noWSedge (l : List Char) : Bool :=
  (match l.head? with | some a => !a.isWhitespace | none => true) &&
  (match l.getLast? with | some a => !a.isWhitespace | none => true)

/-- A PATH entry that survives the strip-and-split round trip of the
bookkeeping helpers: non-empty, colon-free, no whitespace at the ends. -/
def entryOK (x : String) : Bool :=
  (!x.data.isEmpty) && x.data.all (fun c => !(c = ':')) && noWSedge x.data

/-- A PATH variable value is well formed for an item list when it is
exactly the colon-join of those items and every item is an entryOK
string. -/
def pathWFb (P : Option String) (l : List String) : Bool :=
  (P == some (pyJoin ':' l)) && l.all entryOK
/- ------------------------------------------------------------------ -/
/- Discovery and settings validation                                  -/
/- ------------------------------------------------------------------ -/

/-- VirtualenvManager.get_venvs (commands.py:224-246): immediate
subdirectories of each configured root (a FileNotFoundError from listing a
missing root skips that root), followed by a .venv descriptor for each
project folder whose .venv entry is a directory. -/
def get_venvs (fs : Fs) (venv_dirs folders : List String) : List VirtualEnvInfo :=
  let environments : List VirtualEnvInfo :=
    venv_dirs.foldl
      (fun acc directory =>
        match fs.listdir directory with
        | none => acc
        | some entries =>
          acc ++ (entries.filter (fun env => fs.isdir (pathJoin directory env))).map
            (fun env => ⟨env, directory⟩))
      []
  folders.foldl
    (fun acc folder =>
      if fs.isdir (pathJoin folder ".venv") then acc ++ [⟨".venv", folder⟩] else acc)
    environments

/-- The ordering and completeness property claimed for discovery, written
declaratively: per-root listings in root order, then per-folder .venv hits
in folder order, with no de-duplication. -/
def listEnvironmentsSpec (fs : Fs) (venv_dirs folders : List String) :
    List VirtualEnvInfo :=
  (venv_dirs.map (fun directory =>
    match fs.listdir directory with
    | none => []
    | some entries =>
      (entries.filter (fun env => fs.isdir (pathJoin directory env))).map
        (fun env => ({ env := env, dir := directory } : VirtualEnvInfo)))).flatten
  ++ folders.filterMap (fun folder =>
      if fs.isdir (pathJoin folder ".venv") then some ⟨".venv", folder⟩ else none)

/-- A Python value as it comes out of the settings store. -/
inductive PyVal where
  | pstr (s : String)
  | pint (n : Int)
  | plist (l : List PyVal)
  | pnone

/-- os.path.expanduser for the plain tilde (no named-user form, which the
settings of this plugin do not use): a leading tilde component is replaced
by the home directory. -/
def expanduser (home s : String) : String :=
  if s = "~" then home
  else if pyStartsWith s "~/" then home ++ String.mk (s.data.drop 1)
  else s

/-- VirtualenvManager.venv_directories (commands.py:207-222): a non-list
value raises ValueError (modelled as Except.error); each string element is
user-expanded and kept, each non-string element pops an error dialog
(collected in the second component) and is skipped. -/
def venv_directories (home : String) (v : PyVal) :
    Except String (List String) × List String :=
  match v with
  | .plist l =>
    let step :=
      l.foldl
        (fun (acc : List String × List String) d =>
          match d with
          | .pstr s => (acc.1 ++ [expanduser home s], acc.2)
          | _ => (acc.1, acc.2 ++ ["Ignored invalid entry in environment_directories"]))
        ([], [])
    (.ok step.1, step.2)
  | _ => (.error "environment_directories should be a list", [])

/-- VirtualenvManager.validate_log_level (commands.py:143-165): accepts a
string that is exactly one of the five upper-case level names (the
round trip through the logging name tables is the identity on them) and
returns it; everything else logs a warning and yields None.  NOTSET is not
in the accepted set and lower-case names are not normalised. -/
def validate_log_level (level : PyVal) : Option String × List String :=
  match level with
  | .pstr s =>
    if s = "DEBUG" ∨ s = "INFO" ∨ s = "WARNING" ∨ s = "ERROR" ∨ s = "CRITICAL"
    then (some s, [])
    else (none, ["Invalid log_level setting"])
  | _ => (none, ["Invalid log_level setting"])

/-- The log-level part of on_settings_changed (commands.py:167-186): a
truthy validated level different from the cached one is applied (the
comparison of the level string with the integer logging.NOTSET on line 172
is always true and never blocks); otherwise the cached level stays. -/
def apply_log_level (cur : Option String) (v : PyVal) : Option String × List String :=
  let r := validate_log_level v
  match r.1 with
  | some l => if some l ≠ cur then (some l, r.2) else (cur, r.2)
  | none => (cur, r.2)

/- ------------------------------------------------------------------ -/
/- Derived forms used by the claims                                   -/
/- ------------------------------------------------------------------ -/

/-- The bin path an activation of this descriptor works with. -/
def binOf (d : VirtualEnvInfo) : String := get_bin_path (pathJoin d.dir d.env)

/-- The state after activating a list of descriptors in order. -/
def activateAll (fs : Fs) : MgrState → List VirtualEnvInfo → MgrState
  | s, [] => s
  | s, d :: ds => activateAll fs (activate_virtualenv fs s d).1 ds

/-- The state after n deactivations. -/
def deactivateN : Nat → MgrState → MgrState
  | 0, s => s
  | n + 1, s => deactivateN n (deactivate_virtualenv s).1

/-- Top-of-stack bookkeeping invariant: when the top record claims an
added_path, that entry is an entryOK string sitting exactly at the front of
the PATH items, and the following item differs from it. -/
def Kchk (s : MgrState) : Bool :=
  match s.activated_envs.getLast? with
  | some r =>
    match r.added_path with
    | some o =>
      entryOK o && ((codeItems s.path).head? == some o) &&
        !((codeItems s.path).tail.head? == some o)
    | none => true
  | none => true

/-- The claimed VIRTUAL_ENV invariant: the top record's venv path mirrors
the variable, and an empty stack means the variable is unset. -/
def C8chk (s : MgrState) : Bool :=
  match s.activated_envs.getLast? with
  | some r => s.virtual_env == some r.VIRTUAL_ENV
  | none => s.virtual_env == none

/-- Consecutive descriptors in an activation sequence have distinct bin
paths. -/
def chainOK : List VirtualEnvInfo → Bool
  | [] => true
  | [_] => true
  | a :: b :: rest => (binOf a ≠ binOf b : Bool) && chainOK (b :: rest)

/- ------------------------------------------------------------------ -/
/- Lemma layer: the Python string methods and the item view of PATH   -/
/- ------------------------------------------------------------------ -/

theorem splitC_ne_nil (c : Char) (l : List Char) : splitC c l ≠ [] := by
  cases l with
  | nil => simp [splitC]
  | cons x xs =>
    simp only [splitC]
    split
    · simp
    · split <;> simp

theorem joinC_splitC (c : Char) (l : List Char) : joinC c (splitC c l) = l := by
  induction l with
  | nil => rfl
  | cons x xs ih =>
    simp only [splitC]
    split
    · rename_i hx
      rcases h : splitC c xs with _ | ⟨y, ys⟩
      · exact absurd h (splitC_ne_nil c xs)
      · rw [h] at ih
        simp only [joinC, hx]
        cases ys with
        | nil => simp only [joinC] at ih ⊢; simp [ih]
        | cons z zs => simp only [joinC] at ih ⊢; simp [ih]
    · rcases h : splitC c xs with _ | ⟨y, ys⟩
      · exact absurd h (splitC_ne_nil c xs)
      · rw [h] at ih
        cases ys with
        | nil =>
          simp only [joinC] at ih ⊢
          simp [ih]
        | cons z zs =>
          simp only [joinC] at ih ⊢
          simp [ih]

theorem splitC_of_no_sep (c : Char) (l : List Char) (h : ∀ a ∈ l, a ≠ c) :
    splitC c l = [l] := by
  induction l with
  | nil => rfl
  | cons x xs ih =>
    have hx : x ≠ c := h x (by simp)
    have hxs : ∀ a ∈ xs, a ≠ c := fun a ha => h a (by simp [ha])
    simp only [splitC, if_neg hx, ih hxs]

theorem splitC_append_sep (c : Char) (x rest : List Char) (h : ∀ a ∈ x, a ≠ c) :
    splitC c (x ++ c :: rest) = x :: splitC c rest := by
  induction x with
  | nil => simp [splitC]
  | cons a as ih =>
    have ha : a ≠ c := h a (by simp)
    have has : ∀ b ∈ as, b ≠ c := fun b hb => h b (by simp [hb])
    simp only [List.cons_append, splitC, if_neg ha, List.append_eq, ih has]

theorem splitC_joinC (c : Char) (ls : List (List Char)) (hne : ls ≠ [])
    (hc : ∀ x ∈ ls, ∀ a ∈ x, a ≠ c) : splitC c (joinC c ls) = ls := by
  induction ls with
  | nil => exact absurd rfl hne
  | cons x xs ih =>
    cases xs with
    | nil =>
      simp only [joinC]
      exact splitC_of_no_sep c x (hc x (by simp))
    | cons y ys =>
      simp only [joinC]
      rw [splitC_append_sep c x _ (hc x (by simp))]
      rw [ih (by simp) (fun z hz a ha => hc z (by simp [hz]) a ha)]

theorem dropWhile_eq_self_of_head (p : Char → Bool) (l : List Char)
    (h : ∀ a, l.head? = some a → p a = false) : l.dropWhile p = l := by
  cases l with
  | nil => rfl
  | cons x xs => simp [List.dropWhile_cons, h x rfl]

theorem stripL_eq_self (l : List Char)
    (h1 : ∀ a, l.head? = some a → a.isWhitespace = false)
    (h2 : ∀ a, l.getLast? = some a → a.isWhitespace = false) : stripL l = l := by
  unfold stripL
  rw [dropWhile_eq_self_of_head _ _ h1]
  rw [dropWhile_eq_self_of_head _ _ (by simpa [List.head?_reverse] using h2)]
  exact l.reverse_reverse

theorem head_false_of_dropWhile_eq_self (p : Char → Bool) (l : List Char)
    (h : l.dropWhile p = l) : ∀ a, l.head? = some a → p a = false := by
  intro a ha
  cases l with
  | nil => simp at ha
  | cons x xs =>
    simp only [List.head?_cons, Option.some.injEq] at ha
    subst ha
    by_contra hw
    simp only [Bool.not_eq_false] at hw
    rw [List.dropWhile_cons, if_pos hw] at h
    have hle := (List.dropWhile_sublist (l := xs) p).length_le
    have h2 := congrArg List.length h
    simp at h2
    omega

theorem stripL_head_last (l : List Char) (h : stripL l = l) :
    (∀ a, l.head? = some a → a.isWhitespace = false) ∧
    (∀ a, l.getLast? = some a → a.isWhitespace = false) := by
  have hB : ((l.dropWhile Char.isWhitespace).reverse.dropWhile
      Char.isWhitespace).reverse = l := h
  have lenB : ((l.dropWhile Char.isWhitespace).reverse.dropWhile
      Char.isWhitespace).length = l.length := by
    have := congrArg List.length hB
    simpa using this
  have sA : (l.dropWhile Char.isWhitespace).Sublist l := List.dropWhile_sublist _
  have sB : ((l.dropWhile Char.isWhitespace).reverse.dropWhile
      Char.isWhitespace).Sublist (l.dropWhile Char.isWhitespace).reverse :=
    List.dropWhile_sublist _
  have lenB_le : ((l.dropWhile Char.isWhitespace).reverse.dropWhile
      Char.isWhitespace).length ≤ (l.dropWhile Char.isWhitespace).length := by
    have := sB.length_le
    simpa using this
  have hAl : l.dropWhile Char.isWhitespace = l :=
    sA.eq_of_length (Nat.le_antisymm sA.length_le (by omega))
  have hRev : l.reverse.dropWhile Char.isWhitespace = l.reverse := by
    rw [hAl] at sB lenB
    exact sB.eq_of_length (Nat.le_antisymm sB.length_le (by simp [lenB]))
  refine ⟨head_false_of_dropWhile_eq_self _ _ hAl, ?_⟩
  intro a ha
  exact head_false_of_dropWhile_eq_self _ _ hRev a (by rw [List.head?_reverse]; exact ha)

theorem joinC_ne_nil (c : Char) (x : List Char) (xs : List (List Char)) (hx : x ≠ []) :
    joinC c (x :: xs) ≠ [] := by
  cases xs with
  | nil => simpa [joinC] using hx
  | cons y ys => simp [joinC, hx]

theorem joinC_head? (c : Char) (x : List Char) (xs : List (List Char)) (hx : x ≠ []) :
    (joinC c (x :: xs)).head? = x.head? := by
  cases xs with
  | nil => rfl
  | cons y ys =>
    simp only [joinC]
    cases x with
    | nil => exact absurd rfl hx
    | cons a as => simp

theorem joinC_getLast?_mem (c : Char) (ls : List (List Char)) (hne : ls ≠ [])
    (h : ∀ x ∈ ls, x ≠ []) :
    ∀ a, (joinC c ls).getLast? = some a → ∃ x ∈ ls, x.getLast? = some a := by
  induction ls with
  | nil => exact absurd rfl hne
  | cons x xs ih =>
    cases xs with
    | nil =>
      intro a ha
      exact ⟨x, by simp, by simpa [joinC] using ha⟩
    | cons y ys =>
      intro a ha
      have hy : joinC c (y :: ys) ≠ [] := joinC_ne_nil c y ys (h y (by simp))
      have hrw : (joinC c (x :: y :: ys)).getLast? = (joinC c (y :: ys)).getLast? := by
        show (x ++ c :: joinC c (y :: ys)).getLast? = _
        have h2 : c :: joinC c (y :: ys) = [c] ++ joinC c (y :: ys) := rfl
        rw [List.getLast?_append, h2, List.getLast?_append]
        rcases hg : (joinC c (y :: ys)).getLast? with _ | b
        · exact absurd (List.getLast?_eq_none_iff.mp hg) hy
        · simp
      rw [hrw] at ha
      obtain ⟨z, hz, hzl⟩ := ih (by simp) (fun w hw => h w (by simp [hw])) a ha
      exact ⟨z, by simp [hz], hzl⟩

theorem String_mk_data (s : String) : String.mk s.data = s := rfl

theorem entryOK_iff (x : String) : entryOK x = true ↔
    x.data ≠ [] ∧ (∀ c ∈ x.data, c ≠ ':') ∧
    (∀ a, x.data.head? = some a → a.isWhitespace = false) ∧
    (∀ a, x.data.getLast? = some a → a.isWhitespace = false) := by
  unfold entryOK noWSedge
  simp only [Bool.and_eq_true, List.all_eq_true, Bool.not_eq_true', List.isEmpty_iff]
  constructor
  · rintro ⟨⟨hne, hcol⟩, hed⟩
    refine ⟨by simpa using hne, ?_, ?_, ?_⟩
    · intro c hc
      have := hcol c hc
      simpa using this
    · intro a ha
      rcases hed with ⟨h1, _⟩
      rw [ha] at h1
      simpa using h1
    · intro a ha
      rcases hed with ⟨_, h2⟩
      rw [ha] at h2
      simpa using h2
  · rintro ⟨hne, hcol, hh, hl⟩
    refine ⟨⟨by simpa using hne, ?_⟩, ?_, ?_⟩
    · intro c hc
      simpa using hcol c hc
    · rcases hhead : x.data.head? with _ | a
      · simp
      · simpa using hh a hhead
    · rcases hlast : x.data.getLast? with _ | a
      · simp
      · simpa using hl a hlast

theorem pathWFb_iff (P : Option String) (l : List String) : pathWFb P l = true ↔
    P = some (pyJoin ':' l) ∧ ∀ x ∈ l, entryOK x = true := by
  unfold pathWFb
  simp [Bool.and_eq_true, List.all_eq_true, beq_iff_eq]

theorem pyJoin_data (c : Char) (l : List String) :
    (pyJoin c l).data = joinC c (l.map String.data) := rfl

theorem WF_join_strip (l : List String) (hne : l ≠ [])
    (h : ∀ x ∈ l, entryOK x = true) : pyStrip (pyJoin ':' l) = pyJoin ':' l := by
  apply String.ext
  show stripL (pyJoin ':' l).data = (pyJoin ':' l).data
  rw [pyJoin_data]
  rcases l with _ | ⟨x, xs⟩
  · exact absurd rfl hne
  · apply stripL_eq_self
    · intro a ha
      have hx := (entryOK_iff x).mp (h x (by simp))
      rw [List.map_cons, joinC_head? _ _ _ hx.1] at ha
      exact hx.2.2.1 a ha
    · intro a ha
      have hmem := joinC_getLast?_mem ':' ((x :: xs).map String.data) (by simp)
        (by
          intro z hz
          simp only [List.mem_map] at hz
          obtain ⟨y, hy, rfl⟩ := hz
          exact ((entryOK_iff y).mp (h y hy)).1) a ha
      obtain ⟨z, hz, hzl⟩ := hmem
      simp only [List.mem_map] at hz
      obtain ⟨y, hy, rfl⟩ := hz
      exact ((entryOK_iff y).mp (h y hy)).2.2.2 a hzl

theorem WF_join_ne_empty (l : List String) (hne : l ≠ [])
    (h : ∀ x ∈ l, entryOK x = true) : pyJoin ':' l ≠ "" := by
  rcases l with _ | ⟨x, xs⟩
  · exact absurd rfl hne
  · intro hcontra
    have hdata : (pyJoin ':' (x :: xs)).data = [] := by rw [hcontra]
    rw [pyJoin_data] at hdata
    have h2 : joinC ':' (x.data :: xs.map String.data) = [] := by simpa using hdata
    exact joinC_ne_nil ':' x.data (xs.map String.data)
      ((entryOK_iff x).mp (h x (by simp))).1 h2

theorem WF_split_join (l : List String) (hne : l ≠ [])
    (h : ∀ x ∈ l, entryOK x = true) : pySplit ':' (pyJoin ':' l) = l := by
  unfold pySplit
  rw [pyJoin_data]
  rw [splitC_joinC ':' (l.map String.data) (by simpa using hne)]
  · rw [List.map_map]
    have hid : (String.mk ∘ String.data) = id := funext fun s => rfl
    rw [hid, List.map_id]
  · intro x hx a ha
    simp only [List.mem_map] at hx
    obtain ⟨y, hy, rfl⟩ := hx
    exact ((entryOK_iff y).mp (h y hy)).2.1 a ha

theorem codeItems_of_WF (P : Option String) (l : List String)
    (h : pathWFb P l = true) : codeItems P = l := by
  obtain ⟨hP, hOK⟩ := (pathWFb_iff P l).mp h
  subst hP
  rcases hl : l with _ | ⟨x, xs⟩
  · rfl
  · rw [← hl]
    have hne : l ≠ [] := by rw [hl]; simp
    have hred : codeItems (some (pyJoin ':' l)) =
        (if pyStrip (pyJoin ':' l) = "" then [] else pySplit ':' (pyStrip (pyJoin ':' l))) :=
      rfl
    rw [hred, WF_join_strip l hne hOK, if_neg (WF_join_ne_empty l hne hOK),
      WF_split_join l hne hOK]

theorem add_spec (s : MgrState) (l : List String) (p : String)
    (h : pathWFb s.path l = true) :
    add_to_PATH s p =
      if l = [] ∨ l.head? ≠ some p
      then ({ s with path := some (pyJoin ':' (p :: l)) }, true)
      else (s, false) := by
  unfold add_to_PATH
  rw [codeItems_of_WF s.path l h]

theorem remove_spec (s : MgrState) (l : List String) (p : String)
    (h : pathWFb s.path l = true) :
    remove_first_occurrence_in_PATH s p =
      if p ∈ l
      then ({ s with path := some (pyJoin ':' (removeFirst p l)) }, true)
      else (s, false) := by
  obtain ⟨hP, hOK⟩ := (pathWFb_iff s.path l).mp h
  unfold remove_first_occurrence_in_PATH
  rw [hP]
  rcases hl : l with _ | ⟨x, xs⟩
  · subst hl
    simp only []
    rw [if_pos]
    · simp
    · rfl
  · rw [← hl]
    have hne : l ≠ [] := by rw [hl]; simp
    simp only []
    rw [if_neg, WF_join_strip l hne hOK, WF_split_join l hne hOK]
    intro hcontra
    exact WF_join_ne_empty l hne hOK (by rw [← WF_join_strip l hne hOK, hcontra])

theorem removeFirst_cons_self (p : String) (t : List String) :
    removeFirst p (p :: t) = t := by simp [removeFirst]

theorem removeFirst_cons_ne (p x : String) (t : List String) (h : x ≠ p) :
    removeFirst p (x :: t) = x :: removeFirst p t := by simp [removeFirst, h]

theorem removeFirst_all (f : String → Bool) (p : String) (l : List String)
    (h : ∀ x ∈ l, f x = true) : ∀ y ∈ removeFirst p l, f y = true := by
  induction l with
  | nil => intro y hy; simp [removeFirst] at hy
  | cons x xs ih =>
    intro y hy
    by_cases hx : x = p
    · subst hx
      rw [removeFirst_cons_self] at hy
      exact h y (List.mem_cons_of_mem _ hy)
    · rw [removeFirst_cons_ne p x xs hx] at hy
      rcases List.mem_cons.mp hy with h1 | h1
      · subst h1
        exact h y (by simp)
      · exact ih (fun z hz => h z (List.mem_cons_of_mem _ hz)) y h1

theorem count_removeFirst_ne (p q : String) (l : List String) (h : q ≠ p) :
    (removeFirst p l).count q = l.count q := by
  induction l with
  | nil => simp [removeFirst]
  | cons x xs ih =>
    by_cases hx : x = p
    · rw [hx, removeFirst_cons_self, List.count_cons]
      have : (p == q) = false := by simp [Ne.symm h]
      simp [this]
    · rw [removeFirst_cons_ne p x xs hx, List.count_cons, List.count_cons, ih]

/- ------------------------------------------------------------------ -/
/- Shared helper lemmas about the manager operations                  -/
/- ------------------------------------------------------------------ -/

theorem activate_of_not_exists (fs : Fs) (s : MgrState) (d : VirtualEnvInfo)
    (h : fs.exists_path (pathJoin d.dir d.env) = false) :
    activate_virtualenv fs s d =
      (s, ⟨["Virtualenv " ++ pathJoin d.dir d.env ++ " does not exist."], [], [], []⟩) := by
  simp only [activate_virtualenv, h, Bool.false_eq_true, if_false]

theorem deactivate_of_empty (s : MgrState) (h : s.activated_envs = []) :
    deactivate_virtualenv s = (s, ⟨[], [], [], ["No venv to be deactivated"]⟩) := by
  unfold deactivate_virtualenv
  rw [h]
  rfl

theorem activate_of_exists (fs : Fs) (s : MgrState) (d : VirtualEnvInfo)
    (h : fs.exists_path (pathJoin d.dir d.env) = true) :
    activate_virtualenv fs s d =
      (let venv_path := pathJoin d.dir d.env
       let venv_bin_path := get_bin_path venv_path
       let s1 := removeOldAdded s venv_bin_path
       let r := add_to_PATH s1 venv_bin_path
       let msg := "Activated virtualenv: " ++ d.env
       ({ activated_envs :=
            r.1.activated_envs ++
              [⟨some d.env, if r.2 then some venv_bin_path else none, venv_path⟩],
          path := r.1.path,
          virtual_env := some venv_path },
        ⟨[], [msg], [get_python_path venv_bin_path], [msg]⟩)) := by
  simp only [activate_virtualenv, h, if_true]

theorem get_venvs_dirs_fold (fs : Fs) (l : List String) (init : List VirtualEnvInfo) :
    l.foldl
      (fun acc directory =>
        match fs.listdir directory with
        | none => acc
        | some entries =>
          acc ++ (entries.filter (fun env => fs.isdir (pathJoin directory env))).map
            (fun env => ⟨env, directory⟩))
      init
    = init ++ (l.map (fun directory =>
        match fs.listdir directory with
        | none => []
        | some entries =>
          (entries.filter (fun env => fs.isdir (pathJoin directory env))).map
            (fun env => ({ env := env, dir := directory } : VirtualEnvInfo)))).flatten := by
  induction l generalizing init with
  | nil => simp
  | cons x xs ih =>
    simp only [List.foldl_cons, List.map_cons, List.flatten_cons]
    cases h : fs.listdir x with
    | none => rw [ih]; simp [h]
    | some es => rw [ih]; simp [h, List.append_assoc]

theorem get_venvs_folders_fold (fs : Fs) (l : List String)
    (init : List VirtualEnvInfo) :
    l.foldl
      (fun acc folder =>
        if fs.isdir (pathJoin folder ".venv") then acc ++ [⟨".venv", folder⟩] else acc)
      init
    = init ++ l.filterMap (fun folder =>
        if fs.isdir (pathJoin folder ".venv") then some ⟨".venv", folder⟩ else none) := by
  induction l generalizing init with
  | nil => simp
  | cons x xs ih =>
    simp only [List.foldl_cons, List.filterMap_cons]
    cases h : fs.isdir (pathJoin x ".venv") with
    | false => rw [ih]; simp [h]
    | true => rw [ih]; simp [h, List.append_assoc]

theorem venv_directories_fold (home : String) (l : List PyVal)
    (acc : List String × List String) :
    l.foldl
      (fun (acc : List String × List String) d =>
        match d with
        | PyVal.pstr s => (acc.1 ++ [expanduser home s], acc.2)
        | _ => (acc.1, acc.2 ++ ["Ignored invalid entry in environment_directories"]))
      acc
    = (acc.1 ++ l.filterMap (fun d =>
        match d with
        | PyVal.pstr s => some (expanduser home s)
        | _ => none),
       acc.2 ++ (l.filter (fun d =>
        match d with
        | PyVal.pstr _ => false
        | _ => true)).map
        (fun _ => "Ignored invalid entry in environment_directories")) := by
  induction l generalizing acc with
  | nil => simp
  | cons x xs ih =>
    cases x <;> simp [ih, List.filterMap_cons, List.filter_cons, List.append_assoc]

/- ------------------------------------------------------------------ -/
/- The claims                                                         -/
/- ------------------------------------------------------------------ -/

/-- C2: for every descriptor whose joined path rootDirectory/name does not
exist on disk, activation reports an error dialog to the user and leaves
all state unchanged: the activation stack, PATH and VIRTUAL_ENV are
exactly as before, and no LSP notification (and no status message or log
line) is emitted. -/
theorem C2_activate_missing_is_pure_error (fs : Fs) (s : MgrState) (d : VirtualEnvInfo)
    (h : fs.exists_path (pathJoin d.dir d.env) = false) :
    activate_virtualenv fs s d =
      (s, ⟨["Virtualenv " ++ pathJoin d.dir d.env ++ " does not exist."], [], [], []⟩) :=
  activate_of_not_exists fs s d h

/-- Witness for C2 at a concrete input: a filesystem on which nothing
exists, one stacked record, PATH and VIRTUAL_ENV set. -/
theorem C2_witness :
    activate_virtualenv ⟨fun _ => false, fun _ => false, fun _ => none⟩
        ⟨[⟨some "a", none, "/e/a"⟩], some "/u", some "/e/a"⟩ ⟨"b", "/e"⟩ =
      (⟨[⟨some "a", none, "/e/a"⟩], some "/u", some "/e/a"⟩,
       ⟨["Virtualenv /e/b does not exist."], [], [], []⟩) := by
  have h := C2_activate_missing_is_pure_error
    ⟨fun _ => false, fun _ => false, fun _ => none⟩
    ⟨[⟨some "a", none, "/e/a"⟩], some "/u", some "/e/a"⟩ ⟨"b", "/e"⟩ rfl
  simpa using h

/-- C9: deactivation with an empty activation stack never fails, emits one
log line, and leaves PATH, VIRTUAL_ENV and the stack untouched; no LSP
notification, no error dialog and no status message are produced. -/
theorem C9_deactivate_empty_noop (s : MgrState) (h : s.activated_envs = []) :
    deactivate_virtualenv s = (s, ⟨[], [], [], ["No venv to be deactivated"]⟩) :=
  deactivate_of_empty s h

/-- Witness for C9 at a concrete state with PATH and VIRTUAL_ENV set. -/
theorem C9_witness :
    deactivate_virtualenv ⟨[], some "/u", some "/e/a"⟩ =
      (⟨[], some "/u", some "/e/a"⟩, ⟨[], [], [], ["No venv to be deactivated"]⟩) :=
  C9_deactivate_empty_noop ⟨[], some "/u", some "/e/a"⟩ rfl

/-- C4: the claim says the executable subdirectory is Scripts on
Windows-style platforms and bin elsewhere; the code compares the uncalled
function sublime.platform with the string "win", which is never true, so
it returns the bin join on every platform.  On the Windows platform the
code and the intended platform dispatch disagree. -/
theorem C4_bin_path_always_bin :
    (∀ p : String, get_bin_path p = pathJoin p "bin") ∧
    get_bin_path "/envs/myenv" = "/envs/myenv/bin" ∧
    get_bin_path_intended "win" "/envs/myenv" = "/envs/myenv/Scripts" ∧
    get_bin_path "/envs/myenv" ≠ get_bin_path_intended "win" "/envs/myenv" ∧
    (∀ p : String, get_bin_path p = get_bin_path_intended "linux" p) := by
  refine ⟨fun p => rfl, by decide, by decide, by decide, fun p => ?_⟩
  simp [get_bin_path, get_bin_path_intended]

/-- C5: discovery returns, in order, one descriptor per immediate
subdirectory of each root that lists successfully (roots in configured
order, entries in listing order), then a .venv descriptor per project
folder whose .venv entry is a directory; a root whose listing fails
contributes nothing and raises no error, and nothing is de-duplicated. -/
theorem C5_discovery_order_and_completeness (fs : Fs) (venv_dirs folders : List String) :
    get_venvs fs venv_dirs folders = listEnvironmentsSpec fs venv_dirs folders := by
  unfold get_venvs listEnvironmentsSpec
  rw [get_venvs_folders_fold, get_venvs_dirs_fold]
  simp

/-- C6 counterexample: a non-list environment_directories value is not
warned about and skipped as the claim states; the code raises ValueError,
aborting discovery, with no user-facing message. -/
theorem C6_counterexample :
    venv_directories "/home/u" (PyVal.pstr "/envs") =
      (Except.error "environment_directories should be a list", []) := rfl

/-- C6 (amended): a non-string element of a configured list is reported
with an error dialog and skipped, and validation of the remaining elements
continues; but a value that is not a list altogether raises ValueError and
aborts discovery instead of being skipped with a warning. -/
theorem C6_amended_invalid_entry_policy (home : String) (v : PyVal) :
    (match v with
     | PyVal.plist l =>
       venv_directories home v =
         (Except.ok (l.filterMap (fun d =>
            match d with
            | PyVal.pstr s => some (expanduser home s)
            | _ => none)),
          (l.filter (fun d =>
            match d with
            | PyVal.pstr _ => false
            | _ => true)).map
            (fun _ => "Ignored invalid entry in environment_directories"))
     | _ => ∃ msg, venv_directories home v = (Except.error msg, [])) := by
  cases v with
  | plist l =>
    simp only [venv_directories]
    rw [venv_directories_fold]
    simp
  | pstr s => exact ⟨_, rfl⟩
  | pint n => exact ⟨_, rfl⟩
  | pnone => exact ⟨_, rfl⟩

/-- C7 counterexample: validation is not case-insensitive and does not
accept NOTSET; both a lower-case name and NOTSET are rejected with a
warning. -/
theorem C7_counterexample :
    validate_log_level (PyVal.pstr "debug") = (none, ["Invalid log_level setting"]) ∧
    validate_log_level (PyVal.pstr "NOTSET") = (none, ["Invalid log_level setting"]) := by
  constructor <;> decide

/-- C7 (amended): validation accepts exactly the five upper-case names
DEBUG, INFO, WARNING, ERROR, CRITICAL (case-sensitively, with NOTSET
not accepted); every other value produces a warning and the previously
applied log level stays in effect. -/
theorem C7_amended_log_level_validation (cur : Option String) (v : PyVal) :
    validate_log_level v =
      (match v with
       | PyVal.pstr s =>
         if s = "DEBUG" ∨ s = "INFO" ∨ s = "WARNING" ∨ s = "ERROR" ∨ s = "CRITICAL"
         then (some s, [])
         else (none, ["Invalid log_level setting"])
       | _ => (none, ["Invalid log_level setting"]))
    ∧ (apply_log_level cur v).1 =
        (match (validate_log_level v).1 with
         | some l => some l
         | none => cur) := by
  constructor
  · cases v <;> rfl
  · unfold apply_log_level
    cases h : (validate_log_level v).1 with
    | none => simp [h]
    | some l =>
      simp only [h]
      by_cases hc : some l = cur
      · rw [if_neg (by simpa using hc), hc]
      · rw [if_pos (by simpa using hc)]


theorem remove_first_stack (s : MgrState) (p : String) :
    (remove_first_occurrence_in_PATH s p).1.activated_envs = s.activated_envs := by
  unfold remove_first_occurrence_in_PATH
  cases s.path with
  | none => rfl
  | some cp =>
    by_cases h : pyStrip cp = ""
    · simp [h]
    · by_cases hm : p ∈ pySplit ':' (pyStrip cp) <;> simp [h, hm]

theorem remove_first_venv (s : MgrState) (p : String) :
    (remove_first_occurrence_in_PATH s p).1.virtual_env = s.virtual_env := by
  unfold remove_first_occurrence_in_PATH
  cases s.path with
  | none => rfl
  | some cp =>
    by_cases h : pyStrip cp = ""
    · simp [h]
    · by_cases hm : p ∈ pySplit ':' (pyStrip cp) <;> simp [h, hm]

theorem add_stack (s : MgrState) (p : String) :
    (add_to_PATH s p).1.activated_envs = s.activated_envs := by
  unfold add_to_PATH
  by_cases h : codeItems s.path = [] ∨ (codeItems s.path).head? ≠ some p <;> simp [h]

theorem add_venv (s : MgrState) (p : String) :
    (add_to_PATH s p).1.virtual_env = s.virtual_env := by
  unfold add_to_PATH
  by_cases h : codeItems s.path = [] ∨ (codeItems s.path).head? ≠ some p <;> simp [h]

theorem clearPrevAdded_nil : clearPrevAdded [] = [] := rfl

theorem clearPrevAdded_getLast? (l : List ActivatedVirtualEnvInfo)
    (pr : ActivatedVirtualEnvInfo) (h : l.getLast? = some pr) :
    (clearPrevAdded l).getLast? = some { pr with added_path := none } := by
  unfold clearPrevAdded
  rw [h]
  exact List.getLast?_concat _

theorem deactivate_fields (s : MgrState) (popped : ActivatedVirtualEnvInfo)
    (hLast : s.activated_envs.getLast? = some popped) :
    ((deactivate_virtualenv s).1.virtual_env =
      match s.activated_envs.dropLast.getLast? with
      | some pr => some pr.VIRTUAL_ENV
      | none => none) ∧
    ((deactivate_virtualenv s).1.activated_envs = s.activated_envs.dropLast ∨
     (deactivate_virtualenv s).1.activated_envs =
       clearPrevAdded s.activated_envs.dropLast) := by
  simp only [deactivate_virtualenv, hLast]
  cases hap : popped.added_path with
  | none =>
    simp only []
    constructor
    · split <;> (try split) <;> (try split) <;> (try split) <;>
        simp_all [add_venv, remove_first_venv]
    · split <;> (try split) <;> (try split) <;> (try split) <;>
        simp_all [add_stack, remove_first_stack]
  | some ap =>
    by_cases hq : ap = ""
    · simp only [hq, ne_eq, not_true_eq_false, if_false]
      constructor
      · split <;> (try split) <;> (try split) <;> (try split) <;>
          simp_all [add_venv, remove_first_venv]
      · split <;> (try split) <;> (try split) <;> (try split) <;>
          simp_all [add_stack, remove_first_stack]
    · simp only [ne_eq, hq, not_false_eq_true, if_true]
      constructor
      · split <;> (try split) <;> (try split) <;> (try split) <;>
          simp_all [add_venv, remove_first_venv]
      · split <;> (try split) <;> (try split) <;> (try split) <;>
          simp_all [add_stack, remove_first_stack]

/-- C8: the invariant that a non-empty activation stack has its top
record's virtualEnvPath equal to the VIRTUAL_ENV variable, and an empty
stack has the variable unset, is established by initialization and is
preserved by activation and by deactivation. -/
theorem C8_virtual_env_mirrors_top (fs : Fs) (d : VirtualEnvInfo)
    (envPATH envVIRTUAL : Option String) (s : MgrState) (h : C8chk s = true) :
    C8chk (initManagerState envPATH envVIRTUAL) = true ∧
    C8chk (activate_virtualenv fs s d).1 = true ∧
    C8chk (deactivate_virtualenv s).1 = true := by
  refine ⟨?_, ?_, ?_⟩
  · cases envVIRTUAL <;> simp [C8chk, initManagerState]
  · cases hex : fs.exists_path (pathJoin d.dir d.env) with
    | false => rw [activate_of_not_exists fs s d hex]; exact h
    | true =>
      rw [activate_of_exists fs s d hex]
      simp [C8chk, List.getLast?_concat]
  · cases hLast : s.activated_envs.getLast? with
    | none => rw [deactivate_of_empty s (List.getLast?_eq_none_iff.mp hLast)]; exact h
    | some popped =>
      obtain ⟨hv, hst⟩ := deactivate_fields s popped hLast
      unfold C8chk
      cases hprev : s.activated_envs.dropLast.getLast? with
      | none =>
        have hnil : s.activated_envs.dropLast = [] := List.getLast?_eq_none_iff.mp hprev
        rw [hprev] at hv
        rcases hst with hst | hst <;> rw [hst] <;> simp [hnil, clearPrevAdded_nil, hv]
      | some pr =>
        rw [hprev] at hv
        have hv2 : (deactivate_virtualenv s).1.virtual_env = some pr.VIRTUAL_ENV := hv
        rcases hst with hst | hst
        · rw [hst, hprev]
          show ((deactivate_virtualenv s).1.virtual_env == some pr.VIRTUAL_ENV) = true
          rw [hv2]
          simp
        · rw [hst, clearPrevAdded_getLast? _ pr hprev]
          show ((deactivate_virtualenv s).1.virtual_env ==
            some ({ pr with added_path := none }).VIRTUAL_ENV) = true
          rw [hv2]
          simp

/-- Witness for C8 at concrete inputs. -/
theorem C8_witness :
    C8chk (initManagerState (some "/u") none) = true ∧
    C8chk (activate_virtualenv ⟨fun _ => true, fun _ => true, fun _ => none⟩
      ⟨[], some "/u", none⟩ ⟨"a", "/e"⟩).1 = true ∧
    C8chk (deactivate_virtualenv ⟨[], some "/u", none⟩).1 = true :=
  C8_virtual_env_mirrors_top ⟨fun _ => true, fun _ => true, fun _ => none⟩
    ⟨"a", "/e"⟩ (some "/u") none ⟨[], some "/u", none⟩ (by decide)

theorem removeOldAdded_props (s : MgrState) (l : List String) (b : String)
    (hWF : pathWFb s.path l = true) (hhead : l.head? = some b) :
    ∃ l1, pathWFb (removeOldAdded s b).path l1 = true ∧ l1.head? = some b ∧
      l1.count b = l.count b ∧
      (removeOldAdded s b).activated_envs = s.activated_envs ∧
      (removeOldAdded s b).virtual_env = s.virtual_env := by
  cases hLast : s.activated_envs.getLast? with
  | none =>
    have hred : removeOldAdded s b = s := by
      unfold removeOldAdded
      rw [hLast]
    rw [hred]
    exact ⟨l, hWF, hhead, rfl, rfl, rfl⟩
  | some top =>
    cases hap : top.added_path with
    | none =>
      have hred : removeOldAdded s b = s := by
        unfold removeOldAdded
        simp only [hLast, hap]
      rw [hred]
      exact ⟨l, hWF, hhead, rfl, rfl, rfl⟩
    | some old =>
      have hred : removeOldAdded s b =
          (if old ≠ "" ∧ old ≠ b then (remove_first_occurrence_in_PATH s old).1 else s) := by
        unfold removeOldAdded
        simp only [hLast, hap]
      rw [hred]
      by_cases hc : old ≠ "" ∧ old ≠ b
      · rw [if_pos hc, remove_spec s l old hWF]
        by_cases hmem : old ∈ l
        · rw [if_pos hmem]
          obtain ⟨t, rfl⟩ : ∃ t, l = b :: t := by
            cases l with
            | nil => exact absurd hhead (by simp)
            | cons x xs =>
              simp only [List.head?_cons, Option.some.injEq] at hhead
              exact ⟨xs, by rw [hhead]⟩
          have hbne : b ≠ old := Ne.symm hc.2
          refine ⟨removeFirst old (b :: t), ?_, ?_, ?_, rfl, rfl⟩
          · rw [pathWFb_iff]
            exact ⟨rfl, removeFirst_all entryOK old (b :: t) ((pathWFb_iff _ _).mp hWF).2⟩
          · rw [removeFirst_cons_ne old b t hbne]
            simp
          · exact count_removeFirst_ne old b (b :: t) hbne
        · rw [if_neg hmem]
          exact ⟨l, hWF, hhead, rfl, rfl, rfl⟩
      · rw [if_neg hc]
        exact ⟨l, hWF, hhead, rfl, rfl, rfl⟩

/-- C3: activating a descriptor whose bin path is already the first PATH
entry (in particular, immediately re-activating the currently active
environment) pushes exactly one new record, whose addedPathEntry is
absent, and does not add the bin path to PATH a second time: the number of
occurrences of the bin path among the PATH items is unchanged and it is
still the first entry. -/
theorem C3_reactivation_adds_no_duplicate (fs : Fs) (s : MgrState) (d : VirtualEnvInfo)
    (l : List String)
    (hWF : pathWFb s.path l = true)
    (hhead : l.head? = some (binOf d))
    (hex : fs.exists_path (pathJoin d.dir d.env) = true) :
    ((activate_virtualenv fs s d).1).activated_envs
        = s.activated_envs ++ [⟨some d.env, none, pathJoin d.dir d.env⟩] ∧
    (codeItems ((activate_virtualenv fs s d).1).path).count (binOf d)
        = l.count (binOf d) ∧
    (codeItems ((activate_virtualenv fs s d).1).path).head? = some (binOf d) := by
  rw [activate_of_exists fs s d hex]
  simp only []
  have hbin : get_bin_path (pathJoin d.dir d.env) = binOf d := rfl
  rw [hbin]
  obtain ⟨l1, hWF1, hhead1, hcount1, hstack1, _⟩ :=
    removeOldAdded_props s l (binOf d) hWF hhead
  have hne1 : l1 ≠ [] := by
    intro hcontra
    rw [hcontra] at hhead1
    simp at hhead1
  have hcond : ¬(l1 = [] ∨ l1.head? ≠ some (binOf d)) := by
    push_neg
    exact ⟨hne1, hhead1⟩
  rw [add_spec (removeOldAdded s (binOf d)) l1 (binOf d) hWF1, if_neg hcond]
  refine ⟨by rw [hstack1]; simp, ?_, ?_⟩
  · rw [codeItems_of_WF _ l1 hWF1]
    exact hcount1
  · rw [codeItems_of_WF _ l1 hWF1]
    exact hhead1

/-- Witness for C3 at a concrete state in which the bin path of the
descriptor is the single PATH entry. -/
theorem C3_witness :
    ((activate_virtualenv ⟨fun _ => true, fun _ => true, fun _ => none⟩
        ⟨[], some "/e/a/bin", none⟩ ⟨"a", "/e"⟩).1).activated_envs
      = [⟨some "a", none, "/e/a"⟩] ∧
    (codeItems ((activate_virtualenv ⟨fun _ => true, fun _ => true, fun _ => none⟩
        ⟨[], some "/e/a/bin", none⟩ ⟨"a", "/e"⟩).1).path).count "/e/a/bin" = 1 := by
  have h := C3_reactivation_adds_no_duplicate
    ⟨fun _ => true, fun _ => true, fun _ => none⟩
    ⟨[], some "/e/a/bin", none⟩ ⟨"a", "/e"⟩ ["/e/a/bin"]
    (by decide) (by decide) rfl
  refine ⟨by simpa using h.1, ?_⟩
  have h2 := h.2.1
  simpa using h2

theorem pySplit_map_data (c : Char) (s : String) :
    (pySplit c s).map String.data = splitC c s.data := by
  unfold pySplit
  rw [List.map_map]
  have hid : (String.data ∘ String.mk) = id := funext fun l => rfl
  rw [hid, List.map_id]

theorem pySplit_ne_nil (c : Char) (s : String) : pySplit c s ≠ [] := by
  unfold pySplit
  simp [splitC_ne_nil]

theorem pyJoin_pySplit (c : Char) (s : String) : pyJoin c (pySplit c s) = s := by
  apply String.ext
  show joinC c ((pySplit c s).map String.data) = s.data
  rw [pySplit_map_data, joinC_splitC]

theorem pyJoin_cons_split_data (p str : String) :
    (pyJoin ':' (p :: pySplit ':' str)).data = p.data ++ ':' :: str.data := by
  show joinC ':' ((p :: pySplit ':' str).map String.data) = p.data ++ ':' :: str.data
  rw [List.map_cons, pySplit_map_data]
  rcases h : splitC ':' str.data with _ | ⟨y, ys⟩
  · exact absurd h (splitC_ne_nil ':' str.data)
  · show joinC ':' (p.data :: y :: ys) = p.data ++ ':' :: str.data
    simp only [joinC]
    rw [← h, joinC_splitC]

theorem pyStrip_of_entryOK (p : String) (hp : entryOK p = true) : pyStrip p = p := by
  obtain ⟨hne, hcol, hh, hl⟩ := (entryOK_iff p).mp hp
  apply String.ext
  show stripL p.data = p.data
  exact stripL_eq_self p.data hh hl

theorem pySplit_of_entryOK (p : String) (hp : entryOK p = true) :
    pySplit ':' p = [p] := by
  obtain ⟨hne, hcol, hh, hl⟩ := (entryOK_iff p).mp hp
  unfold pySplit
  rw [splitC_of_no_sep ':' p.data hcol]
  rfl

/-- C10 counterexample: with the clean PATH value /usr/bin, adding the
entry a:b succeeds, but the immediately following removal of a:b returns
False and leaves the grown PATH in place, because the added entry is split
at its own colon. -/
theorem C10_counterexample :
    pyStrip "/usr/bin" = "/usr/bin" ∧
    add_to_PATH ⟨[], some "/usr/bin", none⟩ "a:b" =
      (⟨[], some "a:b:/usr/bin", none⟩, true) ∧
    remove_first_occurrence_in_PATH ⟨[], some "a:b:/usr/bin", none⟩ "a:b" =
      (⟨[], some "a:b:/usr/bin", none⟩, false) := by
  refine ⟨by decide, by decide, by decide⟩

theorem remove_of_some (s : MgrState) (cp p : String) (hp : s.path = some cp) :
    remove_first_occurrence_in_PATH s p =
      if pyStrip cp = "" then (s, false)
      else if p ∈ pySplit ':' (pyStrip cp) then
        ({ s with path := some (pyJoin ':' (removeFirst p (pySplit ':' (pyStrip cp)))) },
         true)
      else (s, false) := by
  unfold remove_first_occurrence_in_PATH
  rw [hp]

/-- C10 (amended): over a set PATH value with no leading or trailing
whitespace, and for an entry that is non-empty, colon-free and has no
whitespace at its ends: if add_to_PATH returns True then an immediately
following remove_first_occurrence_in_PATH of the same entry returns True
and restores the state (in particular PATH) exactly; and removal of an
entry that does not occur among the colon-separated items returns False
and changes nothing. -/
theorem C10_add_remove_round_trip (s : MgrState) (str p : String)
    (hP : s.path = some str) (hstrip : pyStrip str = str) :
    (entryOK p = true → ∀ s1, add_to_PATH s p = (s1, true) →
      remove_first_occurrence_in_PATH s1 p = (s, true)) ∧
    (p ∉ pySplit ':' str → remove_first_occurrence_in_PATH s p = (s, false)) := by
  constructor
  · intro hp s1 hadd
    obtain ⟨hpne, hpcol, hph, hpl⟩ := (entryOK_iff p).mp hp
    have hpne2 : p ≠ "" := by
      intro hcontra
      exact hpne (by rw [hcontra])
    by_cases hstr : str = ""
    · subst hstr
      have hitems : codeItems s.path = [] := by rw [hP]; rfl
      unfold add_to_PATH at hadd
      rw [hitems] at hadd
      simp only [List.head?_nil, true_or, if_true] at hadd
      have hs1 : s1 = { s with path := some (pyJoin ':' [p]) } := by
        have := congrArg Prod.fst hadd
        simp at this
        rw [← this]
      subst hs1
      have hjp : pyJoin ':' [p] = p := rfl
      rw [hjp]
      rw [remove_of_some _ p p rfl, pyStrip_of_entryOK p hp, if_neg hpne2,
        pySplit_of_entryOK p hp, if_pos (by simp)]
      have hrf : removeFirst p [p] = [] := by simp [removeFirst]
      rw [hrf]
      have hjoin : (pyJoin ':' ([] : List String)) = "" := rfl
      rw [hjoin, ← hP]
    · have hitems : codeItems s.path = pySplit ':' str := by
        rw [hP]
        show (if pyStrip str = "" then [] else pySplit ':' (pyStrip str)) = pySplit ':' str
        rw [hstrip, if_neg hstr]
      unfold add_to_PATH at hadd
      rw [hitems] at hadd
      by_cases hcnd : pySplit ':' str = [] ∨ (pySplit ':' str).head? ≠ some p
      · rw [if_pos hcnd] at hadd
        have hs1 : s1 = { s with path := some (pyJoin ':' (p :: pySplit ':' str)) } := by
          have := congrArg Prod.fst hadd
          simp at this
          rw [← this]
        subst hs1
        have hdata := pyJoin_cons_split_data p str
        have hstrdata : stripL str.data = str.data := congrArg String.data hstrip
        have hstrne : str.data ≠ [] := by
          intro hcontra
          exact hstr (String.ext hcontra)
        have hstrip2 : pyStrip (pyJoin ':' (p :: pySplit ':' str)) =
            pyJoin ':' (p :: pySplit ':' str) := by
          apply String.ext
          show stripL (pyJoin ':' (p :: pySplit ':' str)).data = _
          rw [hdata]
          apply stripL_eq_self
          · intro a ha
            rcases hpd : p.data with _ | ⟨x, xs⟩
            · exact absurd hpd hpne
            · rw [hpd] at ha
              simp only [List.cons_append, List.head?_cons, Option.some.injEq] at ha
              exact ha ▸ hph x (by rw [hpd]; rfl)
          · intro a ha
            rw [List.getLast?_append] at ha
            have hlast : (':' :: str.data).getLast? = str.data.getLast? := by
              have h2 : (':' :: str.data) = [':'] ++ str.data := rfl
              rw [h2, List.getLast?_append]
              rcases hg : str.data.getLast? with _ | b
              · exact absurd (List.getLast?_eq_none_iff.mp hg) hstrne
              · simp
            rw [hlast] at ha
            rcases hg : str.data.getLast? with _ | b
            · exact absurd (List.getLast?_eq_none_iff.mp hg) hstrne
            · rw [hg] at ha
              simp only [Option.or_some, Option.some.injEq] at ha
              exact ha ▸ (stripL_head_last str.data hstrdata).2 b hg
        have hne2 : pyJoin ':' (p :: pySplit ':' str) ≠ "" := by
          intro hcontra
          have hd2 := congrArg String.data hcontra
          rw [hdata] at hd2
          rcases hpd : p.data with _ | ⟨x, xs⟩
          · exact absurd hpd hpne
          · rw [hpd] at hd2
            simp at hd2
        have hsplit2 : pySplit ':' (pyJoin ':' (p :: pySplit ':' str)) =
            p :: pySplit ':' str := by
          show (splitC ':' (pyJoin ':' (p :: pySplit ':' str)).data).map String.mk = _
          rw [hdata, splitC_append_sep ':' p.data str.data hpcol, List.map_cons]
          show String.mk p.data :: (splitC ':' str.data).map String.mk = p :: pySplit ':' str
          rfl
        rw [remove_of_some _ _ p rfl, hstrip2, if_neg hne2, hsplit2,
          if_pos (by simp), removeFirst_cons_self, pyJoin_pySplit, ← hP]
      · rw [if_neg hcnd] at hadd
        have := congrArg Prod.snd hadd
        simp at this
  · intro hmem
    rw [remove_of_some s str p hP]
    by_cases hstr : pyStrip str = ""
    · rw [if_pos hstr]
    · rw [if_neg hstr, hstrip, if_neg hmem]

/-- Witness for C10 at concrete values: a one-entry PATH, one successful
addition undone exactly by one removal, and a removal of an absent entry
that is a no-op. -/
theorem C10_witness :
    remove_first_occurrence_in_PATH ⟨[], some "p:/u", none⟩ "p" =
      (⟨[], some "/u", none⟩, true) ∧
    remove_first_occurrence_in_PATH ⟨[], some "/u", none⟩ "q" =
      (⟨[], some "/u", none⟩, false) := by
  constructor
  · exact (C10_add_remove_round_trip ⟨[], some "/u", none⟩ "/u" "p" rfl (by decide)).1
      (by decide) ⟨[], some "p:/u", none⟩ (by decide)
  · exact (C10_add_remove_round_trip ⟨[], some "/u", none⟩ "/u" "q" rfl (by decide)).2
      (by decide)

theorem Kchk_build (st : List ActivatedVirtualEnvInfo) (R : ActivatedVirtualEnvInfo)
    (P V : Option String) :
    Kchk ⟨st ++ [R], P, V⟩ =
      (match R.added_path with
       | some o =>
         entryOK o && ((codeItems P).head? == some o) &&
           !((codeItems P).tail.head? == some o)
       | none => true) := by
  unfold Kchk
  simp only [List.getLast?_concat]

theorem C8chk_build (st : List ActivatedVirtualEnvInfo) (R : ActivatedVirtualEnvInfo)
    (P V : Option String) :
    C8chk ⟨st ++ [R], P, V⟩ = (V == some R.VIRTUAL_ENV) := by
  unfold C8chk
  simp only [List.getLast?_concat]

theorem C8chk_some_venv (s : MgrState) (r : ActivatedVirtualEnvInfo)
    (hLast : s.activated_envs.getLast? = some r) (h : C8chk s = true) :
    s.virtual_env = some r.VIRTUAL_ENV := by
  unfold C8chk at h
  simp only [hLast] at h
  simpa using h

theorem C8chk_none_venv (s : MgrState)
    (hLast : s.activated_envs.getLast? = none) (h : C8chk s = true) :
    s.virtual_env = none := by
  unfold C8chk at h
  simp only [hLast] at h
  simpa using h

theorem Kchk_extract (s : MgrState) (r : ActivatedVirtualEnvInfo) (o : String)
    (hLast : s.activated_envs.getLast? = some r) (hap : r.added_path = some o)
    (h : Kchk s = true) :
    entryOK o = true ∧ (codeItems s.path).head? = some o ∧
      (codeItems s.path).tail.head? ≠ some o := by
  unfold Kchk at h
  simp only [hLast, hap, Bool.and_eq_true, beq_iff_eq, Bool.not_eq_true',
    beq_eq_false_iff_ne, ne_eq] at h
  exact ⟨h.1.1, h.1.2, h.2⟩

theorem deactivate_concat (st : List ActivatedVirtualEnvInfo)
    (R : ActivatedVirtualEnvInfo) (P V : Option String) :
    (deactivate_virtualenv ⟨st ++ [R], P, V⟩).1 =
      (let s0 : MgrState := ⟨st, P, V⟩
       let s1 := match R.added_path with
         | some ap => if ap ≠ "" then (remove_first_occurrence_in_PATH s0 ap).1 else s0
         | none => s0
       let s2 := match st.getLast? with
         | some pr => { s1 with virtual_env := some pr.VIRTUAL_ENV }
         | none => { s1 with virtual_env := none }
       match st.getLast? with
       | some pr =>
         match pr.added_path with
         | some q =>
           if q ≠ "" then
             (let r := add_to_PATH s2 q
              if r.2 then r.1
              else { r.1 with activated_envs := clearPrevAdded r.1.activated_envs })
           else s2
         | none => s2
       | none => s2) := by
  simp only [deactivate_virtualenv, List.getLast?_concat, List.dropLast_concat]

theorem entryOK_ne_empty (p : String) (hp : entryOK p = true) : p ≠ "" := by
  intro hcontra
  have := ((entryOK_iff p).mp hp).1
  rw [hcontra] at this
  exact this rfl

theorem activate_roundTrip (fs : Fs) (s : MgrState) (d : VirtualEnvInfo)
    (l : List String)
    (hWF : pathWFb s.path l = true) (hK : Kchk s = true) (hC8 : C8chk s = true)
    (hb : entryOK (binOf d) = true)
    (hex : fs.exists_path (pathJoin d.dir d.env) = true) :
    (∃ l2, pathWFb ((activate_virtualenv fs s d).1).path l2 = true) ∧
    Kchk (activate_virtualenv fs s d).1 = true ∧
    C8chk (activate_virtualenv fs s d).1 = true ∧
    ((deactivate_virtualenv (activate_virtualenv fs s d).1).1).path = s.path ∧
    ((deactivate_virtualenv (activate_virtualenv fs s d).1).1).virtual_env
      = s.virtual_env ∧
    ((∀ r, s.activated_envs.getLast? = some r → r.added_path ≠ some (binOf d)) →
      (deactivate_virtualenv (activate_virtualenv fs s d).1).1 = s) := by
  have hA := activate_of_exists fs s d hex
  have hbin : get_bin_path (pathJoin d.dir d.env) = binOf d := rfl
  obtain ⟨hPs, hOKl⟩ := (pathWFb_iff _ _).mp hWF
  have hbne : binOf d ≠ "" := entryOK_ne_empty _ hb
  cases hTop : s.activated_envs.getLast? with
  | none =>
    have hstnil : s.activated_envs = [] := List.getLast?_eq_none_iff.mp hTop
    have hVnone : s.virtual_env = none := C8chk_none_venv s hTop hC8
    have hs1 : removeOldAdded s (binOf d) = s := by
      unfold removeOldAdded
      rw [hTop]
    by_cases hc : l = [] ∨ l.head? ≠ some (binOf d)
    · have hr : add_to_PATH s (binOf d) =
          ({ s with path := some (pyJoin ':' (binOf d :: l)) }, true) := by
        rw [add_spec s l (binOf d) hWF, if_pos hc]
      have hT : (activate_virtualenv fs s d).1 =
          ⟨s.activated_envs ++ [⟨some d.env, some (binOf d), pathJoin d.dir d.env⟩],
           some (pyJoin ':' (binOf d :: l)), some (pathJoin d.dir d.env)⟩ := by
        rw [hA]
        simp only [hbin, hs1, hr]
        try simp
      have hOK2 : ∀ x ∈ binOf d :: l, entryOK x = true := by
        intro x hx
        rcases List.mem_cons.mp hx with h1 | h1
        · rw [h1]; exact hb
        · exact hOKl x h1
      have hWF2 : pathWFb (some (pyJoin ':' (binOf d :: l))) (binOf d :: l) = true :=
        (pathWFb_iff _ _).mpr ⟨rfl, hOK2⟩
      have htl : l.head? ≠ some (binOf d) := by
        rcases hc with hc | hc
        · rw [hc]; simp
        · exact hc
      have hD : (deactivate_virtualenv (activate_virtualenv fs s d).1).1 =
          (⟨s.activated_envs, some (pyJoin ':' l), none⟩ : MgrState) := by
        rw [hT, hstnil, deactivate_concat]
        simp only [List.getLast?_nil, ne_eq, hbne, not_false_eq_true, if_true]
        rw [remove_spec ⟨[], some (pyJoin ':' (binOf d :: l)), some (pathJoin d.dir d.env)⟩
          (binOf d :: l) (binOf d) hWF2, if_pos (by simp), removeFirst_cons_self]
      refine ⟨⟨binOf d :: l, ?_⟩, ?_, ?_, ?_, ?_, ?_⟩
      · rw [hT]; exact hWF2
      · rw [hT, Kchk_build]
        simp only [codeItems_of_WF _ _ hWF2]
        simp [hb, htl]
      · rw [hT, C8chk_build]
        simp
      · rw [hD, ← hPs]
      · rw [hD, ← hVnone]
      · intro _
        rw [hD, ← hPs, ← hVnone]
    · push_neg at hc
      obtain ⟨hlne, hlhead⟩ := hc
      have hr : add_to_PATH s (binOf d) = (s, false) := by
        rw [add_spec s l (binOf d) hWF, if_neg (by push_neg; exact ⟨hlne, hlhead⟩)]
      have hT : (activate_virtualenv fs s d).1 =
          ⟨s.activated_envs ++ [⟨some d.env, none, pathJoin d.dir d.env⟩],
           s.path, some (pathJoin d.dir d.env)⟩ := by
        rw [hA]
        simp only [hbin, hs1, hr]
        try simp
      have hD : (deactivate_virtualenv (activate_virtualenv fs s d).1).1 =
          (⟨s.activated_envs, s.path, none⟩ : MgrState) := by
        rw [hT, hstnil, deactivate_concat]
        simp only [List.getLast?_nil]
      refine ⟨⟨l, ?_⟩, ?_, ?_, ?_, ?_, ?_⟩
      · rw [hT]; exact hWF
      · rw [hT, Kchk_build]
        try simp
      · rw [hT, C8chk_build]
        simp
      · rw [hD]
      · rw [hD, ← hVnone]
      · intro _
        rw [hD, ← hVnone]
  | some top =>
    have hVtop : s.virtual_env = some top.VIRTUAL_ENV := C8chk_some_venv s top hTop hC8
    cases hap : top.added_path with
    | none =>
      have hs1 : removeOldAdded s (binOf d) = s := by
        unfold removeOldAdded
        simp only [hTop, hap]
      by_cases hc : l = [] ∨ l.head? ≠ some (binOf d)
      · have hr : add_to_PATH s (binOf d) =
            ({ s with path := some (pyJoin ':' (binOf d :: l)) }, true) := by
          rw [add_spec s l (binOf d) hWF, if_pos hc]
        have hT : (activate_virtualenv fs s d).1 =
            ⟨s.activated_envs ++ [⟨some d.env, some (binOf d), pathJoin d.dir d.env⟩],
             some (pyJoin ':' (binOf d :: l)), some (pathJoin d.dir d.env)⟩ := by
          rw [hA]
          simp only [hbin, hs1, hr]
          try simp
        have hOK2 : ∀ x ∈ binOf d :: l, entryOK x = true := by
          intro x hx
          rcases List.mem_cons.mp hx with h1 | h1
          · rw [h1]; exact hb
          · exact hOKl x h1
        have hWF2 : pathWFb (some (pyJoin ':' (binOf d :: l))) (binOf d :: l) = true :=
          (pathWFb_iff _ _).mpr ⟨rfl, hOK2⟩
        have htl : l.head? ≠ some (binOf d) := by
          rcases hc with hc | hc
          · rw [hc]; simp
          · exact hc
        have hD : (deactivate_virtualenv (activate_virtualenv fs s d).1).1 =
            (⟨s.activated_envs, some (pyJoin ':' l), some top.VIRTUAL_ENV⟩ : MgrState) := by
          rw [hT, deactivate_concat]
          simp only [hTop, hap, ne_eq, hbne, not_false_eq_true, if_true]
          rw [remove_spec
            ⟨s.activated_envs, some (pyJoin ':' (binOf d :: l)), some (pathJoin d.dir d.env)⟩
            (binOf d :: l) (binOf d) hWF2, if_pos (by simp), removeFirst_cons_self]
        refine ⟨⟨binOf d :: l, ?_⟩, ?_, ?_, ?_, ?_, ?_⟩
        · rw [hT]; exact hWF2
        · rw [hT, Kchk_build]
          simp only [codeItems_of_WF _ _ hWF2]
          simp [hb, htl]
        · rw [hT, C8chk_build]
          simp
        · rw [hD, ← hPs]
        · rw [hD, ← hVtop]
        · intro _
          rw [hD, ← hPs, ← hVtop]
      · push_neg at hc
        obtain ⟨hlne, hlhead⟩ := hc
        have hr : add_to_PATH s (binOf d) = (s, false) := by
          rw [add_spec s l (binOf d) hWF, if_neg (by push_neg; exact ⟨hlne, hlhead⟩)]
        have hT : (activate_virtualenv fs s d).1 =
            ⟨s.activated_envs ++ [⟨some d.env, none, pathJoin d.dir d.env⟩],
             s.path, some (pathJoin d.dir d.env)⟩ := by
          rw [hA]
          simp only [hbin, hs1, hr]
          try simp
        have hD : (deactivate_virtualenv (activate_virtualenv fs s d).1).1 =
            (⟨s.activated_envs, s.path, some top.VIRTUAL_ENV⟩ : MgrState) := by
          rw [hT, deactivate_concat]
          simp only [hTop, hap]
        refine ⟨⟨l, ?_⟩, ?_, ?_, ?_, ?_, ?_⟩
        · rw [hT]; exact hWF
        · rw [hT, Kchk_build]
          try simp
        · rw [hT, C8chk_build]
          simp
        · rw [hD]
        · rw [hD, ← hVtop]
        · intro _
          rw [hD, ← hVtop]
    | some o =>
      obtain ⟨hoOK, hohead, hotail⟩ := Kchk_extract s top o hTop hap hK
      have hone : o ≠ "" := entryOK_ne_empty _ hoOK
      rw [codeItems_of_WF s.path l hWF] at hohead hotail
      obtain ⟨t, rfl⟩ : ∃ t, l = o :: t := by
        cases l with
        | nil => exact absurd hohead (by simp)
        | cons x xs =>
          simp only [List.head?_cons, Option.some.injEq] at hohead
          exact ⟨xs, by rw [hohead]⟩
      have httail : t.head? ≠ some o := by simpa using hotail
      have hOKt : ∀ x ∈ t, entryOK x = true :=
        fun x hx => hOKl x (List.mem_cons_of_mem _ hx)
      by_cases hob : o = binOf d
      · -- the duplicate case: the top record already owns the bin path
        subst hob
        have hs1 : removeOldAdded s (binOf d) = s := by
          unfold removeOldAdded
          simp only [hTop, hap]
          rw [if_neg (by simp)]
        have hr : add_to_PATH s (binOf d) = (s, false) := by
          rw [add_spec s (binOf d :: t) (binOf d) hWF, if_neg (by simp)]
        have hT : (activate_virtualenv fs s d).1 =
            ⟨s.activated_envs ++ [⟨some d.env, none, pathJoin d.dir d.env⟩],
             s.path, some (pathJoin d.dir d.env)⟩ := by
          rw [hA]
          simp only [hbin, hs1, hr]
          try simp
        have hr2 : add_to_PATH ⟨s.activated_envs, s.path, some top.VIRTUAL_ENV⟩
            (binOf d) =
            (⟨s.activated_envs, s.path, some top.VIRTUAL_ENV⟩, false) := by
          rw [add_spec ⟨s.activated_envs, s.path, some top.VIRTUAL_ENV⟩
            (binOf d :: t) (binOf d)
            (by rw [pathWFb_iff]; exact ⟨hPs, hOKl⟩), if_neg (by simp)]
        have hD : (deactivate_virtualenv (activate_virtualenv fs s d).1).1 =
            (⟨clearPrevAdded s.activated_envs, s.path, some top.VIRTUAL_ENV⟩ :
              MgrState) := by
          rw [hT, deactivate_concat]
          simp only [hTop, hap, ne_eq, hone, not_false_eq_true, if_true, hr2]
          try simp
        refine ⟨⟨binOf d :: t, ?_⟩, ?_, ?_, ?_, ?_, ?_⟩
        · rw [hT]; exact hWF
        · rw [hT, Kchk_build]
          try simp
        · rw [hT, C8chk_build]
          simp
        · rw [hD]
        · rw [hD, ← hVtop]
        · intro hnd
          exact absurd hap (hnd top rfl)
      · -- the previous entry differs from the new bin path and is removed
        have hs1 : removeOldAdded s (binOf d) =
            { s with path := some (pyJoin ':' t) } := by
          unfold removeOldAdded
          simp only [hTop, hap]
          rw [if_pos ⟨hone, hob⟩, remove_spec s (o :: t) o hWF, if_pos (by simp),
            removeFirst_cons_self]
        have hWFt : pathWFb (some (pyJoin ':' t)) t = true :=
          (pathWFb_iff _ _).mpr ⟨rfl, hOKt⟩
        by_cases hc : t = [] ∨ t.head? ≠ some (binOf d)
        · have hr : add_to_PATH { s with path := some (pyJoin ':' t) } (binOf d) =
              ({ s with path := some (pyJoin ':' (binOf d :: t)) }, true) := by
            rw [add_spec { s with path := some (pyJoin ':' t) } t (binOf d) hWFt,
              if_pos hc]
          have hT : (activate_virtualenv fs s d).1 =
              ⟨s.activated_envs ++ [⟨some d.env, some (binOf d), pathJoin d.dir d.env⟩],
               some (pyJoin ':' (binOf d :: t)), some (pathJoin d.dir d.env)⟩ := by
            rw [hA]
            simp only [hbin, hs1, hr]
            try simp
          have hOK2 : ∀ x ∈ binOf d :: t, entryOK x = true := by
            intro x hx
            rcases List.mem_cons.mp hx with h1 | h1
            · rw [h1]; exact hb
            · exact hOKt x h1
          have hWF2 : pathWFb (some (pyJoin ':' (binOf d :: t))) (binOf d :: t) = true :=
            (pathWFb_iff _ _).mpr ⟨rfl, hOK2⟩
          have htl : t.head? ≠ some (binOf d) := by
            rcases hc with hc | hc
            · rw [hc]; simp
            · exact hc
          have hr2 : add_to_PATH ⟨s.activated_envs, some (pyJoin ':' t),
              some top.VIRTUAL_ENV⟩ o =
              (⟨s.activated_envs, some (pyJoin ':' (o :: t)), some top.VIRTUAL_ENV⟩,
               true) := by
            rw [add_spec ⟨s.activated_envs, some (pyJoin ':' t), some top.VIRTUAL_ENV⟩ t o
              (by rw [pathWFb_iff]; exact ⟨rfl, hOKt⟩)]
            rw [if_pos]
            rcases ht : t with _ | ⟨y, ys⟩
            · exact Or.inl rfl
            · right
              rw [← ht]
              exact httail
          have hD : (deactivate_virtualenv (activate_virtualenv fs s d).1).1 =
              (⟨s.activated_envs, some (pyJoin ':' (o :: t)), some top.VIRTUAL_ENV⟩ :
                MgrState) := by
            rw [hT, deactivate_concat]
            simp only [hTop, hap, ne_eq, hbne, hone, not_false_eq_true, if_true]
            rw [remove_spec
              ⟨s.activated_envs, some (pyJoin ':' (binOf d :: t)),
                some (pathJoin d.dir d.env)⟩
              (binOf d :: t) (binOf d) hWF2,
              if_pos (show binOf d ∈ binOf d :: t by simp),
              removeFirst_cons_self (binOf d) t, hr2]
            simp
          refine ⟨⟨binOf d :: t, ?_⟩, ?_, ?_, ?_, ?_, ?_⟩
          · rw [hT]; exact hWF2
          · rw [hT, Kchk_build]
            simp only [codeItems_of_WF _ _ hWF2]
            simp [hb, htl]
          · rw [hT, C8chk_build]
            simp
          · rw [hD, ← hPs]
          · rw [hD, ← hVtop]
          · intro _
            rw [hD, ← hPs, ← hVtop]
        · push_neg at hc
          obtain ⟨htne, hthead⟩ := hc
          have hr : add_to_PATH { s with path := some (pyJoin ':' t) } (binOf d) =
              ({ s with path := some (pyJoin ':' t) }, false) := by
            rw [add_spec { s with path := some (pyJoin ':' t) } t (binOf d) hWFt,
              if_neg (by push_neg; exact ⟨htne, hthead⟩)]
          have hT : (activate_virtualenv fs s d).1 =
              ⟨s.activated_envs ++ [⟨some d.env, none, pathJoin d.dir d.env⟩],
               some (pyJoin ':' t), some (pathJoin d.dir d.env)⟩ := by
            rw [hA]
            simp only [hbin, hs1, hr]
            try simp
          have hr2 : add_to_PATH ⟨s.activated_envs, some (pyJoin ':' t),
              some top.VIRTUAL_ENV⟩ o =
              (⟨s.activated_envs, some (pyJoin ':' (o :: t)), some top.VIRTUAL_ENV⟩,
               true) := by
            rw [add_spec ⟨s.activated_envs, some (pyJoin ':' t), some top.VIRTUAL_ENV⟩ t o
              (by rw [pathWFb_iff]; exact ⟨rfl, hOKt⟩)]
            rw [if_pos]
            right
            rw [hthead]
            intro hcontra
            exact hob (by injection hcontra with h2; rw [h2])
          have hD : (deactivate_virtualenv (activate_virtualenv fs s d).1).1 =
              (⟨s.activated_envs, some (pyJoin ':' (o :: t)), some top.VIRTUAL_ENV⟩ :
                MgrState) := by
            rw [hT, deactivate_concat]
            simp only [hTop, hap, ne_eq, hone, not_false_eq_true, if_true, hr2]
          refine ⟨⟨t, ?_⟩, ?_, ?_, ?_, ?_, ?_⟩
          · rw [hT]; exact hWFt
          · rw [hT, Kchk_build]
            try simp
          · rw [hT, C8chk_build]
            simp
          · rw [hD, ← hPs]
          · rw [hD, ← hVtop]
          · intro _
            rw [hD, ← hPs, ← hVtop]

theorem activate_top_shape (fs : Fs) (s : MgrState) (d : VirtualEnvInfo)
    (hex : fs.exists_path (pathJoin d.dir d.env) = true) :
    ∃ ap, ((activate_virtualenv fs s d).1).activated_envs.getLast? =
        some ⟨some d.env, ap, pathJoin d.dir d.env⟩ ∧
      (ap = some (binOf d) ∨ ap = none) := by
  rw [activate_of_exists fs s d hex]
  simp only []
  cases hr : (add_to_PATH (removeOldAdded s (get_bin_path (pathJoin d.dir d.env)))
      (get_bin_path (pathJoin d.dir d.env))).2 with
  | true =>
    refine ⟨some (binOf d), ?_, Or.inl rfl⟩
    simp [hr, List.getLast?_concat]
    rfl
  | false =>
    refine ⟨none, ?_, Or.inr rfl⟩
    simp [hr, List.getLast?_concat]

theorem chainOK_tail (d : VirtualEnvInfo) (rest : List VirtualEnvInfo)
    (h : chainOK (d :: rest) = true) : chainOK rest = true := by
  cases rest with
  | nil => rfl
  | cons b bs =>
    unfold chainOK at h
    exact (Bool.and_eq_true _ _ |>.mp h).2

theorem chainOK_head_ne (d : VirtualEnvInfo) (rest : List VirtualEnvInfo)
    (h : chainOK (d :: rest) = true) :
    ∀ b, rest.head? = some b → binOf d ≠ binOf b := by
  intro b hb
  cases rest with
  | nil => simp at hb
  | cons c cs =>
    simp only [List.head?_cons, Option.some.injEq] at hb
    subst hb
    unfold chainOK at h
    have := (Bool.and_eq_true _ _ |>.mp h).1
    simpa using this

theorem deactivateN_succ_outer (n : Nat) :
    ∀ s : MgrState, deactivateN (n + 1) s =
      (deactivate_virtualenv (deactivateN n s)).1 := by
  induction n with
  | zero => intro s; rfl
  | succ n ih =>
    intro s
    show deactivateN (n + 1) (deactivate_virtualenv s).1 =
      (deactivate_virtualenv (deactivateN n (deactivate_virtualenv s).1)).1
    exact ih (deactivate_virtualenv s).1

theorem unwindExact (fs : Fs) (ds : List VirtualEnvInfo) :
    ∀ (s : MgrState) (l : List String),
      pathWFb s.path l = true → Kchk s = true → C8chk s = true →
      (∀ d ∈ ds, entryOK (binOf d) = true ∧
        fs.exists_path (pathJoin d.dir d.env) = true) →
      chainOK ds = true →
      (∀ d, ds.head? = some d → ∀ r, s.activated_envs.getLast? = some r →
        r.added_path ≠ some (binOf d)) →
      deactivateN ds.length (activateAll fs s ds) = s := by
  induction ds with
  | nil =>
    intro s l _ _ _ _ _ _
    rfl
  | cons d rest ih =>
    intro s l hWF hK hC8 hds hchain hfirst
    have hb : entryOK (binOf d) = true := (hds d (by simp)).1
    have hex : fs.exists_path (pathJoin d.dir d.env) = true := (hds d (by simp)).2
    obtain ⟨⟨l2, hWF2⟩, hK2, hC82, hpath, hvenv, hexact⟩ :=
      activate_roundTrip fs s d l hWF hK hC8 hb hex
    obtain ⟨ap, hR, hRor⟩ := activate_top_shape fs s d hex
    have hnext : ∀ d2, rest.head? = some d2 →
        ∀ r, ((activate_virtualenv fs s d).1).activated_envs.getLast? = some r →
        r.added_path ≠ some (binOf d2) := by
      intro d2 hd2 r hr hcontra
      rw [hR] at hr
      injection hr with hr
      subst hr
      simp only [] at hcontra
      rcases hRor with h1 | h1
      · rw [h1] at hcontra
        injection hcontra with h2
        exact chainOK_head_ne d rest hchain d2 hd2 h2
      · rw [h1] at hcontra
        exact Option.noConfusion hcontra
    have hds2 : ∀ d2 ∈ rest, entryOK (binOf d2) = true ∧
        fs.exists_path (pathJoin d2.dir d2.env) = true :=
      fun d2 h2 => hds d2 (List.mem_cons_of_mem _ h2)
    show deactivateN (rest.length + 1)
      (activateAll fs (activate_virtualenv fs s d).1 rest) = s
    rw [deactivateN_succ_outer,
      ih (activate_virtualenv fs s d).1 l2 hWF2 hK2 hC82 hds2
        (chainOK_tail d rest hchain) hnext]
    exact hexact (fun r hr => hfirst d rfl r hr)

/-- C1 counterexample: from the initial state with PATH /u, an empty stack
and VIRTUAL_ENV unset, two successful activations of the same descriptor
followed by two deactivations leave PATH holding /e/a/bin:/u instead of
the original /u: the second activation adds nothing, so the first
deactivation re-add reports the entry already present and clears the first
record's addedPathEntry, and the orphaned entry is never removed. -/
theorem C1_counterexample :
    (deactivateN 2 (activateAll ⟨fun _ => true, fun _ => true, fun _ => none⟩
        ⟨[], some "/u", none⟩ [⟨"a", "/e"⟩, ⟨"a", "/e"⟩])).path
      = some "/e/a/bin:/u" ∧
    (⟨[], some "/u", none⟩ : MgrState).path = some "/u" ∧
    some "/e/a/bin:/u" ≠ some "/u" := by
  refine ⟨by decide, rfl, by decide⟩

/-- C1 (amended): from any state satisfying the manager invariants (PATH
well formed as a colon join of clean entries, the top record's
addedPathEntry sitting at the front of the PATH items, VIRTUAL_ENV
mirroring the top record), a sequence of successful activations whose
descriptors have clean bin paths and in which consecutive activations
target distinct bin paths, followed by the same number of deactivations,
restores PATH and VIRTUAL_ENV to their initial values. -/
theorem C1_stack_law (fs : Fs) (s : MgrState) (l : List String)
    (ds : List VirtualEnvInfo)
    (hWF : pathWFb s.path l = true) (hK : Kchk s = true) (hC8 : C8chk s = true)
    (hds : ∀ d ∈ ds, entryOK (binOf d) = true ∧
      fs.exists_path (pathJoin d.dir d.env) = true)
    (hchain : chainOK ds = true) :
    (deactivateN ds.length (activateAll fs s ds)).path = s.path ∧
    (deactivateN ds.length (activateAll fs s ds)).virtual_env = s.virtual_env := by
  cases ds with
  | nil => exact ⟨rfl, rfl⟩
  | cons d rest =>
    have hb : entryOK (binOf d) = true := (hds d (by simp)).1
    have hex : fs.exists_path (pathJoin d.dir d.env) = true := (hds d (by simp)).2
    obtain ⟨⟨l2, hWF2⟩, hK2, hC82, hpath, hvenv, _⟩ :=
      activate_roundTrip fs s d l hWF hK hC8 hb hex
    obtain ⟨ap, hR, hRor⟩ := activate_top_shape fs s d hex
    have hnext : ∀ d2, rest.head? = some d2 →
        ∀ r, ((activate_virtualenv fs s d).1).activated_envs.getLast? = some r →
        r.added_path ≠ some (binOf d2) := by
      intro d2 hd2 r hr hcontra
      rw [hR] at hr
      injection hr with hr
      subst hr
      simp only [] at hcontra
      rcases hRor with h1 | h1
      · rw [h1] at hcontra
        injection hcontra with h2
        exact chainOK_head_ne d rest hchain d2 hd2 h2
      · rw [h1] at hcontra
        exact Option.noConfusion hcontra
    have hds2 : ∀ d2 ∈ rest, entryOK (binOf d2) = true ∧
        fs.exists_path (pathJoin d2.dir d2.env) = true :=
      fun d2 h2 => hds d2 (List.mem_cons_of_mem _ h2)
    show (deactivateN (rest.length + 1)
        (activateAll fs (activate_virtualenv fs s d).1 rest)).path = s.path ∧
      (deactivateN (rest.length + 1)
        (activateAll fs (activate_virtualenv fs s d).1 rest)).virtual_env
        = s.virtual_env
    rw [deactivateN_succ_outer,
      unwindExact fs rest (activate_virtualenv fs s d).1 l2 hWF2 hK2 hC82 hds2
        (chainOK_tail d rest hchain) hnext]
    exact ⟨hpath, hvenv⟩

/-- Witness for C1 at concrete inputs: activating a then b (distinct bin
paths) and deactivating twice restores PATH and VIRTUAL_ENV. -/
theorem C1_witness :
    (deactivateN 2 (activateAll ⟨fun _ => true, fun _ => true, fun _ => none⟩
        ⟨[], some "/u", none⟩ [⟨"a", "/e"⟩, ⟨"b", "/e"⟩])).path = some "/u" ∧
    (deactivateN 2 (activateAll ⟨fun _ => true, fun _ => true, fun _ => none⟩
        ⟨[], some "/u", none⟩ [⟨"a", "/e"⟩, ⟨"b", "/e"⟩])).virtual_env = none := by
  have h := C1_stack_law ⟨fun _ => true, fun _ => true, fun _ => none⟩
    ⟨[], some "/u", none⟩ ["/u"] [⟨"a", "/e"⟩, ⟨"b", "/e"⟩]
    (by decide) (by decide) (by decide) (by decide) (by decide)
  simpa using h
